import Mathlib

/-!
Verification of `install_rimworld_access.py`, the one-file installer of the
RimWorld Access mod.  The Python source is shallowly embedded: the outcomes
of external effects (HTTP calls, downloads, archive extraction, user input,
the filesystem) are passed in explicitly as environment records, and each
function of the source becomes a pure Lean function over those records.
-/

set_option autoImplicit false

namespace RimworldAccess

/-! ## GitHub release data (the JSON objects consumed by the script)

A release as returned by the GitHub API: a tag and a list of assets,
each asset having a file name and a download URL. -/

structure Asset where
  name : String
  browser_download_url : String
deriving Repr, DecidableEq

structure Release where
  tag_name : String
  assets : List Asset
deriving Repr, DecidableEq

/-- Does the second character list begin the first one? -/
def listBeginsWith : List Char → List Char → Bool
  | _, [] => true
  | [], _ :: _ => false
  | c :: cs, d :: ds => c == d && listBeginsWith cs ds

/-- Does `sub` occur as a contiguous run inside `l`? -/
def listContains (sub : List Char) : List Char → Bool
  | [] => sub.isEmpty
  | c :: cs => listBeginsWith (c :: cs) sub || listContains sub cs

/-- Substring containment test, the embedding of Python's `sub in s`. -/
def strContainsSub (s sub : String) : Bool :=
  listContains sub.data s.data

/-- Character-by-character lowercasing, the embedding of `str.lower()`. -/
def lowerStr (s : String) : String :=
  String.mk (s.data.map Char.toLower)

/-- Line 108 of the source: `'-beta' in r.get('tag_name', '').lower()`. -/
def isBetaTag (tag : String) : Bool :=
  strContainsSub (lowerStr tag) "-beta"

/-- Line 118 of the source: `r.get('tag_name', '').lower() == 'dev'`. -/
def isDevTag (tag : String) : Bool :=
  lowerStr tag == "dev"

/-- Lines 100-126 of `get_latest_github_release` (the non-`stable` branch):
after the empty-list check, filter the releases for the requested channel and
take element `[0]` of the filtered list; an unknown channel yields `None`. -/
def selectRelease (release_type : String) (releases : List Release) : Option Release :=
  if releases.isEmpty then none
  else if release_type == "beta" then
    let beta_releases := releases.filter (fun r => isBetaTag r.tag_name)
    if beta_releases.isEmpty then none else beta_releases.head?
  else if release_type == "dev" then
    let dev_releases := releases.filter (fun r => isDevTag r.tag_name)
    if dev_releases.isEmpty then none else dev_releases.head?
  else none

/-- Outcomes of the HTTP calls made by `get_latest_github_release`:
whether the request chain succeeds, what the `releases/latest` endpoint
returns, and what the `releases` list endpoint returns. -/
structure GithubEnv where
  httpOk : Bool
  latestStable : Release
  releases : List Release
deriving Repr, DecidableEq

/-- Which release the function settles on before scanning assets:
the `stable` branch takes the `releases/latest` endpoint's answer directly
(lines 87-92), every other channel goes through `selectRelease`. -/
def selectedRelease (release_type : String) (env : GithubEnv) : Option Release :=
  if release_type == "stable" then some env.latestStable
  else selectRelease release_type env.releases

/-- Suffix test on strings, the embedding of Python's `str.endswith`. -/
def strEndsWith (s suffix : String) : Bool :=
  listBeginsWith s.data.reverse suffix.data.reverse

/-- Lines 129-135: the `for asset in latest_release.get('assets', [])` loop
returning the first asset whose `name` ends in `.zip`. -/
def zipAssetUrl (rel : Release) : Option String :=
  (rel.assets.find? (fun a => strEndsWith a.name ".zip")).map Asset.browser_download_url

/-- `get_latest_github_release` (lines 72-138).  The whole body sits in a
`try`/`except` returning `None`, so a failing HTTP call gives `none`. -/
def get_latest_github_release (release_type : String) (env : GithubEnv) : Option String :=
  if !env.httpOk then none
  else
    match selectedRelease release_type env with
    | none => none
    | some rel => zipAssetUrl rel

/-! ## List lemmas shared by several claims -/

/-- An emptiness guard in front of `head?` is redundant. -/
theorem guarded_head {α : Type} (l : List α) :
    (if l.isEmpty then none else l.head?) = l.head? := by
  cases l <;> rfl

/-- Taking the head of a filtered list is finding the first match. -/
theorem head_filter_eq_find {α : Type} (p : α → Bool) (l : List α) :
    (l.filter p).head? = l.find? p := by
  induction l with
  | nil => rfl
  | cons x xs ih =>
    by_cases h : p x = true
    · simp [List.filter_cons, h, List.find?_cons_of_pos]
    · have hf : p x = false := by
        cases hpx : p x with
        | false => rfl
        | true => exact absurd hpx h
      simp [List.filter_cons, hf, List.find?_cons_of_neg, ih]

/-- `find?` returns the first element satisfying the predicate: an explicit
split of the list into an unsatisfying initial segment, the hit, and a tail. -/
theorem find_eq_some_split {α : Type} (p : α → Bool) (l : List α) (a : α) :
    l.find? p = some a ↔
      p a = true ∧ ∃ l1 l2, l = l1 ++ a :: l2 ∧ ∀ b ∈ l1, p b = false := by
  induction l with
  | nil => simp
  | cons x xs ih =>
    by_cases h : p x = true
    · rw [List.find?_cons_of_pos _ h]
      constructor
      · intro h'
        injection h' with h'
        subst h'
        exact ⟨h, [], xs, rfl, by simp⟩
      · rintro ⟨hpa, l1, l2, hsplit, hl1⟩
        cases l1 with
        | nil =>
          simp only [List.nil_append, List.cons.injEq] at hsplit
          rw [hsplit.1]
        | cons y ys =>
          simp only [List.cons_append, List.cons.injEq] at hsplit
          obtain ⟨rfl, -⟩ := hsplit
          have hx := hl1 x (List.mem_cons_self x ys)
          rw [h] at hx
          cases hx
    · have hf : p x = false := by
        cases hpx : p x with
        | false => rfl
        | true => exact absurd hpx h
      rw [List.find?_cons_of_neg _ h, ih]
      constructor
      · rintro ⟨hpa, l1, l2, rfl, hl1⟩
        refine ⟨hpa, x :: l1, l2, rfl, ?_⟩
        intro b hb
        rcases List.mem_cons.mp hb with rfl | hb
        · exact hf
        · exact hl1 b hb
      · rintro ⟨hpa, l1, l2, hsplit, hl1⟩
        cases l1 with
        | nil =>
          simp only [List.nil_append, List.cons.injEq] at hsplit
          obtain ⟨rfl, rfl⟩ := hsplit
          exact absurd hpa h
        | cons y ys =>
          simp only [List.cons_append, List.cons.injEq] at hsplit
          obtain ⟨rfl, hxs⟩ := hsplit
          exact ⟨hpa, ys, l2, hxs, fun b hb => hl1 b (List.mem_cons_of_mem x hb)⟩

/-! ## Claims about release selection -/

/-- The two concrete releases of the spec's testable property. -/
def relBeta : Release :=
  { tag_name := "v2.0-beta",
    assets := [{ name := "RimworldAccess.zip",
                 browser_download_url := "https://example.com/RimworldAccess.zip" }] }

def relStable : Release :=
  { tag_name := "v1.0",
    assets := [{ name := "RimworldAccess.zip",
                 browser_download_url := "https://example.com/v1.zip" }] }

/-- C4: with channel `beta`, `get_latest_github_release` selects the first
release (in the given order) whose tag contains the case-insensitive `-beta`
marker; with channel `dev`, the first whose tag case-insensitively equals
`dev`.  On the releases `[v2.0-beta, v1.0]`, channel `beta` selects
`v2.0-beta` and channel `dev` finds no release, so the function returns
`none`. -/
theorem selectRelease_first_match :
    (∀ releases : List Release,
      selectRelease "beta" releases = releases.find? (fun r => isBetaTag r.tag_name) ∧
      selectRelease "dev" releases = releases.find? (fun r => isDevTag r.tag_name)) ∧
    selectRelease "beta" [relBeta, relStable] = some relBeta ∧
    get_latest_github_release "dev"
      { httpOk := true, latestStable := relStable, releases := [relBeta, relStable] } = none := by
  refine ⟨fun releases => ⟨?_, ?_⟩, by decide, by decide⟩
  · cases releases with
    | nil => rfl
    | cons r rs =>
      simp only [selectRelease]
      rw [if_neg (by simp), if_pos (by decide : ("beta" == "beta") = true),
        guarded_head]
      exact head_filter_eq_find _ _
  · cases releases with
    | nil => rfl
    | cons r rs =>
      simp only [selectRelease]
      rw [if_neg (by simp), if_neg (by decide : ¬ (("dev" == "beta") = true)),
        if_pos (by decide : ("dev" == "dev") = true), guarded_head]
      exact head_filter_eq_find _ _

/-- C7: within the selected release, `get_latest_github_release` returns the
download URL of the first asset whose filename ends in `.zip`; it returns
`none` when the HTTP call fails, when the channel yields no matching release,
or when the selected release has no `.zip` asset. -/
theorem release_asset_selection :
    ∀ (release_type : String) (env : GithubEnv),
      (env.httpOk = false → get_latest_github_release release_type env = none) ∧
      (env.httpOk = true → selectedRelease release_type env = none →
        get_latest_github_release release_type env = none) ∧
      (∀ rel, env.httpOk = true → selectedRelease release_type env = some rel →
        ((∀ a ∈ rel.assets, strEndsWith a.name ".zip" = false) →
          get_latest_github_release release_type env = none) ∧
        (∀ u, get_latest_github_release release_type env = some u ↔
          ∃ l1 a l2, rel.assets = l1 ++ a :: l2 ∧
            (∀ b ∈ l1, strEndsWith b.name ".zip" = false) ∧
            strEndsWith a.name ".zip" = true ∧ u = a.browser_download_url)) := by
  intro release_type env
  refine ⟨fun h => by simp [get_latest_github_release, h],fun hh hsel => ?_, ?_⟩
  · simp [get_latest_github_release, hh, hsel]
  · intro rel hh hsel
    have hget : get_latest_github_release release_type env = zipAssetUrl rel := by
      simp [get_latest_github_release, hh, hsel]
    constructor
    · intro hnone
      have hfind : rel.assets.find? (fun a => strEndsWith a.name ".zip") = none :=
        List.find?_eq_none.mpr (fun a ha hc => by
          rw [hnone a ha] at hc
          cases hc)
      rw [hget, zipAssetUrl, hfind]
      rfl
    · intro u
      rw [hget, zipAssetUrl, Option.map_eq_some']
      constructor
      · rintro ⟨a, hfind, hurl⟩
        obtain ⟨hz, l1, l2, hsplit, hl1⟩ := (find_eq_some_split _ _ _).mp hfind
        exact ⟨l1, a, l2, hsplit, hl1, hz, hurl.symm⟩
      · rintro ⟨l1, a, l2, hsplit, hl1, hz, rfl⟩
        exact ⟨a, (find_eq_some_split _ _ _).mpr ⟨hz, l1, l2, hsplit, hl1⟩, rfl⟩

/-- Witness for C7: on the concrete release list, channel `beta` with a
working HTTP call returns the sole zip asset's URL, and with a failing
HTTP call returns `none`. -/
theorem release_asset_selection_witness :
    get_latest_github_release "beta"
        { httpOk := true, latestStable := relStable, releases := [relBeta, relStable] }
      = some "https://example.com/RimworldAccess.zip" ∧
    get_latest_github_release "beta"
        { httpOk := false, latestStable := relStable, releases := [relBeta, relStable] }
      = none := by
  constructor
  · have h := (release_asset_selection "beta"
      { httpOk := true, latestStable := relStable, releases := [relBeta, relStable] }).2.2
      relBeta rfl (by decide)
    exact (h.2 "https://example.com/RimworldAccess.zip").mpr
      ⟨[], { name := "RimworldAccess.zip",
             browser_download_url := "https://example.com/RimworldAccess.zip" }, [],
        by decide, by simp, by decide, rfl⟩
  · exact (release_asset_selection "beta"
      { httpOk := false, latestStable := relStable, releases := [relBeta, relStable] }).1 rfl

/-- C10: any `release_type` other than `stable`, `beta` and `dev` makes
`get_latest_github_release` report an invalid release type and return `none`,
whatever the environment answers. -/
theorem invalid_release_type_none :
    ∀ (release_type : String) (env : GithubEnv),
      release_type ≠ "stable" → release_type ≠ "beta" → release_type ≠ "dev" →
      get_latest_github_release release_type env = none := by
  intro rt env h1 h2 h3
  have b1 : (rt == "stable") = false := beq_eq_false_iff_ne.mpr h1
  have b2 : (rt == "beta") = false := beq_eq_false_iff_ne.mpr h2
  have b3 : (rt == "dev") = false := beq_eq_false_iff_ne.mpr h3
  cases hhttp : env.httpOk with
  | false => simp [get_latest_github_release, hhttp]
  | true =>
    simp [get_latest_github_release, hhttp, selectedRelease, selectRelease, b1, b2, b3]

/-- Witness for C10: release type `nightly` yields `none` even with releases
available. -/
theorem invalid_release_type_none_witness :
    get_latest_github_release "nightly"
        { httpOk := true, latestStable := relStable, releases := [relBeta, relStable] }
      = none :=
  invalid_release_type_none "nightly" _ (by decide) (by decide) (by decide)

/-! ## `update_mods_config` (lines 261-328)

The config file is modelled by the data the function reads and writes: the
text of the `li` children of `activeMods` (a missing `activeMods` element is
created empty, so it is the `entries := []` case), the content of the
`.backup` sibling, and a count of writes to the config file.  The backup is
made with `shutil.copy2`, a byte copy, so `backup = some entries` states that
the backup's list equals the pre-patch original's. -/

structure ConfigState where
  fileExists : Bool
  entries : List String
  backup : Option (List String)
  writes : Nat
deriving Repr, DecidableEq

/-- Lines 291-295 of the source. -/
def required_mods : List String :=
  ["brrainz.harmony", "ludeon.rimworld", "shane12300.rimworldaccess"]

/-- Line 289: `[li.text for li in active_mods.findall('li') if li.text]`,
keeping only the children with non-empty text. -/
def currentMods (entries : List String) : List String :=
  entries.filter (fun t => t != "")

/-- Lines 307-319: clear the container, append the required identifiers, then
append the previously-active identifiers not in the required set. -/
def newActiveMods (required current : List String) : List String :=
  required ++ current.filter (fun m => !required.contains m)

/-- `update_mods_config`, parameterised by the required list so the spec's
renamed example can be stated.  `parseOk` is the outcome of `ET.parse` and of
the final write: a raising call lands in the `except` block, which returns
`False` (line 326-328). -/
def updateModsConfigWith (required : List String) (parseOk : Bool)
    (s : ConfigState) : Bool × ConfigState :=
  if !s.fileExists then (true, s)
  else if !parseOk then (false, s)
  else
    let current := currentMods s.entries
    if current.take 3 = required then (true, s)
    else
      (true,
        { fileExists := true,
          entries := newActiveMods required current,
          backup := some s.entries,
          writes := s.writes + 1 })

/-- The function as the source has it, with the fixed required list. -/
def update_mods_config : Bool → ConfigState → Bool × ConfigState :=
  updateModsConfigWith required_mods

/-- Filtering a second time by the outer predicate changes nothing. -/
theorem filter_filter_outer {α : Type} (p q : α → Bool) (l : List α) :
    ((l.filter p).filter q).filter p = (l.filter p).filter q := by
  simp only [List.filter_filter]
  exact List.filter_congr (fun a _ => by cases p a <;> cases q a <;> rfl)

/-- C1: on a parsable config file whose current list does not begin with the
three required identifiers in order, `update_mods_config` backups the
original and rewrites the list to the required identifiers followed by the
remaining previously-active ones in order, de-duplicated only against the
required set; on the spec's example, the list `[x.mod, harmony.id]` with
required list `[harmony.id, base.id, access.id]` becomes exactly
`[harmony.id, base.id, access.id, x.mod]`, with backup `[x.mod, harmony.id]`. -/
theorem update_mods_config_rewrites :
    (∀ s : ConfigState, s.fileExists = true →
      (currentMods s.entries).take 3 ≠ required_mods →
      update_mods_config true s =
        (true,
          { fileExists := true,
            entries := required_mods ++
              (currentMods s.entries).filter (fun m => !required_mods.contains m),
            backup := some s.entries,
            writes := s.writes + 1 })) ∧
    updateModsConfigWith ["harmony.id", "base.id", "access.id"] true
        { fileExists := true, entries := ["x.mod", "harmony.id"], backup := none, writes := 0 } =
      (true,
        { fileExists := true,
          entries := ["harmony.id", "base.id", "access.id", "x.mod"],
          backup := some ["x.mod", "harmony.id"],
          writes := 1 }) := by
  constructor
  · intro s hfe hne
    simp [update_mods_config, updateModsConfigWith, hfe, hne, newActiveMods]
  · decide

/-- Witness for C1's universal part: a file whose list is
`[x.mod, brrainz.harmony]` is rewritten to the three required mods followed
by `x.mod`, with a backup of the original. -/
theorem update_mods_config_rewrites_witness :
    (currentMods ["x.mod", "brrainz.harmony"]).take 3 ≠ required_mods ∧
    update_mods_config true
        { fileExists := true, entries := ["x.mod", "brrainz.harmony"],
          backup := none, writes := 0 } =
      (true,
        { fileExists := true,
          entries := ["brrainz.harmony", "ludeon.rimworld", "shane12300.rimworldaccess", "x.mod"],
          backup := some ["x.mod", "brrainz.harmony"],
          writes := 1 }) := by
  refine ⟨by decide, ?_⟩
  have h := update_mods_config_rewrites.1
    { fileExists := true, entries := ["x.mod", "brrainz.harmony"], backup := none, writes := 0 }
    rfl (by decide)
  rw [h]
  decide

/-- C2: after one successful run of `update_mods_config` on an existing,
parsable file, the resulting file begins with the three required identifiers,
and an immediately following run returns success while changing nothing:
same state, no write, no new backup. -/
theorem update_mods_config_idempotent :
    ∀ s : ConfigState, s.fileExists = true →
      (update_mods_config true s).1 = true →
      (currentMods (update_mods_config true s).2.entries).take 3 = required_mods ∧
      update_mods_config true (update_mods_config true s).2 =
        (true, (update_mods_config true s).2) := by
  intro s hfe _
  by_cases hc : (currentMods s.entries).take 3 = required_mods
  · have h1 : update_mods_config true s = (true, s) := by
      simp [update_mods_config, updateModsConfigWith, hfe, hc]
    rw [h1]
    exact ⟨hc, by simp [update_mods_config, updateModsConfigWith, hfe, hc]⟩
  · have h1 : update_mods_config true s =
        (true,
          { fileExists := true,
            entries := newActiveMods required_mods (currentMods s.entries),
            backup := some s.entries,
            writes := s.writes + 1 }) := by
      simp [update_mods_config, updateModsConfigWith, hfe, hc]
    rw [h1]
    have hcur : currentMods (newActiveMods required_mods (currentMods s.entries)) =
        newActiveMods required_mods (currentMods s.entries) := by
      rw [newActiveMods, currentMods, List.filter_append]
      rw [show List.filter (fun t => t != "") required_mods = required_mods from rfl]
      rw [currentMods, filter_filter_outer]
    have htake : (currentMods (newActiveMods required_mods (currentMods s.entries))).take 3 =
        required_mods := by
      rw [hcur, newActiveMods]
      rw [show (3 : Nat) = required_mods.length from rfl]
      exact List.take_left _ _
    refine ⟨htake, ?_⟩
    simp [update_mods_config, updateModsConfigWith, htake]

/-- Witness for C2: one patching run on the list `[x.mod]`, then a second run
that returns success and leaves the state untouched. -/
theorem update_mods_config_idempotent_witness :
    (currentMods (update_mods_config true
        { fileExists := true, entries := ["x.mod"], backup := none, writes := 0 }).2.entries).take 3
      = required_mods ∧
    update_mods_config true
        (update_mods_config true
          { fileExists := true, entries := ["x.mod"], backup := none, writes := 0 }).2 =
      (true, (update_mods_config true
        { fileExists := true, entries := ["x.mod"], backup := none, writes := 0 }).2) :=
  update_mods_config_idempotent
    { fileExists := true, entries := ["x.mod"], backup := none, writes := 0 } rfl (by decide)

/-! ## Package installation (`install_harmony_mod`, lines 156-204, and
`install_rimworld_access_mod`, lines 207-258)

The two functions are line-for-line the same procedure on different constants
(repository, archive file name, temporary directory name); the constants are
abstracted into the environment, so both embed to the same function.  The
filesystem facts the procedure touches are: whether the downloaded archive
file exists, whether the temporary extraction directory exists, and the map
from installed mod-directory names to their contents (a list of file names).
`downloadPartialFile` and `extractPartialDir` record whether a failing
download or extraction had already created its output on disk before the
error (both can happen: a download can fail mid-stream after the file is
opened, `extractall` can fail after creating the target directory). -/

structure InstallEnv where
  urlFound : Bool
  downloadOk : Bool
  downloadPartialFile : Bool
  extractOk : Bool
  extractPartialDir : Bool
  extractedDirs : List (String × List String)

structure ModsState where
  tempZip : Bool
  tempDir : Bool
  mods : String → Option (List String)

/-- The shared body of the two install functions:
get URL (line 165 / 220), download to the temp zip (171 / 226) returning
`False` without cleanup on failure, extract (176 / 231) unlinking only the
zip on failure, then take `extracted_folders[0]`, remove any existing
destination directory, move the folder in, and remove the temp dir and zip. -/
def installPackage (env : InstallEnv) (s : ModsState) : Bool × ModsState :=
  if !env.urlFound then (false, s)
  else if !env.downloadOk then (false, { s with tempZip := env.downloadPartialFile })
  else
    let s1 : ModsState := { s with tempZip := true }
    if !env.extractOk then (false, { s1 with tempZip := false, tempDir := env.extractPartialDir })
    else
      let s2 : ModsState := { s1 with tempDir := true }
      match env.extractedDirs with
      | [] => (false, { s2 with tempZip := false, tempDir := false })
      | (name, contents) :: _ =>
        (true,
          { tempZip := false, tempDir := false,
            mods := fun n => if n = name then some contents else s2.mods n })

/-- `install_harmony_mod` (lines 156-204). -/
def install_harmony_mod : InstallEnv → ModsState → Bool × ModsState :=
  installPackage

/-- `install_rimworld_access_mod` (lines 207-258). -/
def install_rimworld_access_mod : InstallEnv → ModsState → Bool × ModsState :=
  installPackage

/-- A state with no leftover temporary files and no installed mods. -/
def cleanMods : ModsState :=
  { tempZip := false, tempDir := false, mods := fun _ => none }

/-- Extraction fails after the extraction directory was created on disk. -/
def extractFailEnv : InstallEnv :=
  { urlFound := true, downloadOk := true, downloadPartialFile := false,
    extractOk := false, extractPartialDir := true, extractedDirs := [] }

/-- The download fails mid-stream, after the archive file was created. -/
def downloadFailEnv : InstallEnv :=
  { urlFound := true, downloadOk := false, downloadPartialFile := true,
    extractOk := false, extractPartialDir := false, extractedDirs := [] }

/-- Counterexample to C3: when extraction fails after having created the
temporary directory, `install_harmony_mod` returns `False` with the
directory still on disk; when the download fails after having created the
archive file, the archive file is still on disk at return. -/
theorem install_cleanup_counterexample :
    ((install_harmony_mod extractFailEnv cleanMods).1 = false ∧
      (install_harmony_mod extractFailEnv cleanMods).2.tempDir = true) ∧
    ((install_harmony_mod downloadFailEnv cleanMods).1 = false ∧
      (install_harmony_mod downloadFailEnv cleanMods).2.tempZip = true) :=
  ⟨⟨rfl, rfl⟩, ⟨rfl, rfl⟩⟩

/-- Cleanup facts of `installPackage`, path by path. -/
theorem installPackage_cleanup :
    ∀ (env : InstallEnv) (s : ModsState),
      ((installPackage env s).1 = true →
        (installPackage env s).2.tempZip = false ∧
        (installPackage env s).2.tempDir = false) ∧
      (env.urlFound = true → env.downloadOk = true → env.extractOk = true →
        env.extractedDirs = [] →
        (installPackage env s).2.tempZip = false ∧
        (installPackage env s).2.tempDir = false) ∧
      (env.urlFound = true → env.downloadOk = true → env.extractOk = false →
        (installPackage env s).2.tempZip = false ∧
        (installPackage env s).2.tempDir = env.extractPartialDir) ∧
      (env.urlFound = true → env.downloadOk = false →
        (installPackage env s).2.tempZip = env.downloadPartialFile ∧
        (installPackage env s).2.tempDir = s.tempDir) := by
  intro env s
  obtain ⟨u, dOk, dp, eOk, ep, dirs⟩ := env
  cases u <;> cases dOk <;> cases eOk <;>
    rcases dirs with _ | ⟨⟨nm, cts⟩, rest⟩ <;>
      simp [installPackage]

/-- C3 amended: both install functions clean up the temporary directory and
the archive on the success path and on the no-extracted-folder failure path;
but on a failed download the (possibly partially written) archive file is
left behind, and on a failed extraction only the archive is unlinked while
the (possibly created) extraction directory is left behind. -/
theorem install_cleanup_amended :
    (∀ (env : InstallEnv) (s : ModsState),
      ((install_harmony_mod env s).1 = true →
        (install_harmony_mod env s).2.tempZip = false ∧
        (install_harmony_mod env s).2.tempDir = false) ∧
      (env.urlFound = true → env.downloadOk = true → env.extractOk = true →
        env.extractedDirs = [] →
        (install_harmony_mod env s).2.tempZip = false ∧
        (install_harmony_mod env s).2.tempDir = false) ∧
      (env.urlFound = true → env.downloadOk = true → env.extractOk = false →
        (install_harmony_mod env s).2.tempZip = false ∧
        (install_harmony_mod env s).2.tempDir = env.extractPartialDir) ∧
      (env.urlFound = true → env.downloadOk = false →
        (install_harmony_mod env s).2.tempZip = env.downloadPartialFile ∧
        (install_harmony_mod env s).2.tempDir = s.tempDir)) ∧
    (∀ (env : InstallEnv) (s : ModsState),
      ((install_rimworld_access_mod env s).1 = true →
        (install_rimworld_access_mod env s).2.tempZip = false ∧
        (install_rimworld_access_mod env s).2.tempDir = false) ∧
      (env.urlFound = true → env.downloadOk = true → env.extractOk = true →
        env.extractedDirs = [] →
        (install_rimworld_access_mod env s).2.tempZip = false ∧
        (install_rimworld_access_mod env s).2.tempDir = false) ∧
      (env.urlFound = true → env.downloadOk = true → env.extractOk = false →
        (install_rimworld_access_mod env s).2.tempZip = false ∧
        (install_rimworld_access_mod env s).2.tempDir = env.extractPartialDir) ∧
      (env.urlFound = true → env.downloadOk = false →
        (install_rimworld_access_mod env s).2.tempZip = env.downloadPartialFile ∧
        (install_rimworld_access_mod env s).2.tempDir = s.tempDir)) :=
  ⟨installPackage_cleanup, installPackage_cleanup⟩

/-- The environment of a successful install of a folder named `ModA`. -/
def modAInstallEnv : InstallEnv :=
  { urlFound := true, downloadOk := true, downloadPartialFile := false,
    extractOk := true, extractPartialDir := false,
    extractedDirs := [("ModA", ["About.xml", "ModA.dll"])] }

/-- Witness for C3's amended theorem: a successful install leaves neither
the archive nor the temporary directory behind. -/
theorem install_cleanup_amended_witness :
    (install_harmony_mod modAInstallEnv cleanMods).2.tempZip = false ∧
    (install_harmony_mod modAInstallEnv cleanMods).2.tempDir = false :=
  (install_cleanup_amended.1 modAInstallEnv cleanMods).1 rfl

/-- Replacement facts of `installPackage`. -/
theorem installPackage_replaces :
    ∀ (env : InstallEnv) (s : ModsState) (name : String) (contents : List String)
      (rest : List (String × List String)),
      env.extractedDirs = (name, contents) :: rest →
      (installPackage env s).1 = true →
      (installPackage env s).2.mods name = some contents ∧
      ∀ other, other ≠ name → (installPackage env s).2.mods other = s.mods other := by
  intro env s name contents rest hdirs hsucc
  obtain ⟨u, dOk, dp, eOk, ep, dirs⟩ := env
  cases u <;> cases dOk <;> cases eOk <;>
    simp_all [installPackage]

/-- C6: on a successful install of the extracted top-level folder, the
destination directory holds exactly the new package's contents (any prior
installation of the same name having been removed first), and every other
installed directory is untouched; this holds for both install functions. -/
theorem install_replaces_existing :
    (∀ (env : InstallEnv) (s : ModsState) (name : String) (contents : List String)
      (rest : List (String × List String)),
      env.extractedDirs = (name, contents) :: rest →
      (install_harmony_mod env s).1 = true →
      (install_harmony_mod env s).2.mods name = some contents ∧
      ∀ other, other ≠ name → (install_harmony_mod env s).2.mods other = s.mods other) ∧
    (∀ (env : InstallEnv) (s : ModsState) (name : String) (contents : List String)
      (rest : List (String × List String)),
      env.extractedDirs = (name, contents) :: rest →
      (install_rimworld_access_mod env s).1 = true →
      (install_rimworld_access_mod env s).2.mods name = some contents ∧
      ∀ other, other ≠ name →
        (install_rimworld_access_mod env s).2.mods other = s.mods other) :=
  ⟨installPackage_replaces, installPackage_replaces⟩

/-- A state with a stale `ModA` installation containing an old file. -/
def staleModsState : ModsState :=
  { tempZip := false, tempDir := false,
    mods := fun n => if n = "ModA" then some ["OldFile.dll"] else none }

/-- Witness for C6: re-installing over the stale `ModA` leaves exactly the
new contents (the old file is gone) and does not touch other names. -/
theorem install_replaces_existing_witness :
    (install_harmony_mod modAInstallEnv staleModsState).2.mods "ModA"
        = some ["About.xml", "ModA.dll"] ∧
    (install_harmony_mod modAInstallEnv staleModsState).2.mods "OtherMod" = none := by
  have h := install_replaces_existing.1 modAInstallEnv staleModsState
    "ModA" ["About.xml", "ModA.dll"] [] rfl rfl
  refine ⟨h.1, ?_⟩
  rw [h.2 "OtherMod" (by decide)]
  rfl

/-! ## `download_file` (lines 43-69)

The body's fallible steps are the HTTP request with its status check, the
opening of the destination file, and the chunk writes; the whole body sits
in `try`/`except Exception`, which turns every such error into a printed
message and a `False` return value. -/

inductive DlError where
  | network : DlError
  | filesystem : DlError
deriving Repr, DecidableEq

structure DownloadEnv where
  netOk : Bool
  openOk : Bool
  chunkWriteOks : List Bool
deriving Repr, DecidableEq

/-- The `try` block of `download_file`: the first failing step raises. -/
def download_body (env : DownloadEnv) : Except DlError Unit :=
  if !env.netOk then Except.error DlError.network
  else if !env.openOk then Except.error DlError.filesystem
  else if env.chunkWriteOks.all (fun b => b) then Except.ok ()
  else Except.error DlError.filesystem

/-- `download_file`: the `except` handler catches any error of the body and
returns `False`; a completed body returns `True`. -/
def download_file (env : DownloadEnv) : Bool :=
  match download_body env with
  | Except.ok _ => true
  | Except.error _ => false

/-- C8: `download_file` never lets an error of its body escape: it returns
`True` exactly on a completed download and `False` exactly when the body
raised a network or filesystem error. -/
theorem download_file_no_throw :
    ∀ env : DownloadEnv,
      (download_file env = true ↔ download_body env = Except.ok ()) ∧
      (download_file env = false ↔ ∃ e, download_body env = Except.error e) := by
  intro env
  cases hb : download_body env with
  | ok u =>
    cases u
    simp [download_file, hb]
  | error e =>
    simp [download_file, hb]

/-! ## `main` (lines 331-387)

The whole routine sits in a `try` with `except KeyboardInterrupt` returning
exit code 1; `interrupted` records whether the interrupt fired during the
run.  The install outcomes are the Boolean results of the two install
functions; `update_mods_config` is called on the config state but its result
is discarded. -/

structure MainEnv where
  interrupted : Bool
  harmonyOk : Bool
  accessOk : Bool
  configParseOk : Bool
deriving Repr, DecidableEq

/-- `main`: abort with 1 on interrupt, on a failed Harmony install, or on a
failed RimWorld Access install; then patch the config, ignore its result,
and return 0. -/
def mainExit (env : MainEnv) (cfg : ConfigState) : Nat :=
  if env.interrupted then 1
  else if !env.harmonyOk then 1
  else if !env.accessOk then 1
  else
    let _patched := update_mods_config env.configParseOk cfg
    0

/-- C5: `main` exits 1 when interrupted or when either package install
fails, exits 0 otherwise, and the outcome of the config-patching step never
changes the exit code. -/
theorem main_exit_status :
    ∀ (env : MainEnv) (cfg : ConfigState),
      (env.interrupted = true ∨ env.harmonyOk = false ∨ env.accessOk = false →
        mainExit env cfg = 1) ∧
      (env.interrupted = false → env.harmonyOk = true → env.accessOk = true →
        mainExit env cfg = 0) ∧
      (∀ (b : Bool) (cfg2 : ConfigState),
        mainExit { env with configParseOk := b } cfg2 = mainExit env cfg) := by
  intro env cfg
  obtain ⟨i, h, a, c⟩ := env
  cases i <;> cases h <;> cases a <;> simp [mainExit]

/-- Witness for C5: with both installs succeeding, no interrupt, and a
failing config patch, the exit code is still 0; an interrupted run exits 1. -/
theorem main_exit_status_witness :
    (update_mods_config false
        { fileExists := true, entries := [], backup := none, writes := 0 }).1 = false ∧
    mainExit { interrupted := false, harmonyOk := true, accessOk := true, configParseOk := false }
        { fileExists := true, entries := [], backup := none, writes := 0 } = 0 ∧
    mainExit { interrupted := true, harmonyOk := true, accessOk := true, configParseOk := true }
        { fileExists := true, entries := [], backup := none, writes := 0 } = 1 :=
  ⟨by decide, (main_exit_status _ _).2.1 rfl rfl rfl, (main_exit_status _ _).1 (Or.inl rfl)⟩

/-! ## `find_rimworld_directory` (lines 16-40)

The filesystem is a map from path strings to the four facts the function
queries: existence, directory-ness, and the presence of each of the two
recognized executables.  The user is a stream of input strings; the loop is
given fuel, so that a run consuming `n` inputs is `promptLoop` at fuel `n`
(returning `none` exactly when the fuel runs out before a valid input). -/

structure PathInfo where
  pathExists : Bool
  isDir : Bool
  hasWin64Exe : Bool
  hasWin32Exe : Bool
deriving Repr, DecidableEq

structure PromptEnv where
  fs : String → PathInfo
  inputs : Nat → String

def dquoteChar : Char := '"'

def squoteChar : Char := Char.ofNat 39

/-- Python's `str.strip(c)`: remove every leading and trailing `c`. -/
def stripChar (c : Char) (s : String) : String :=
  String.mk (((s.data.dropWhile (fun a => a == c)).reverse.dropWhile (fun a => a == c)).reverse)

/-- Line 29: `input(...).strip('"').strip("'")`. -/
def cleanInput (s : String) : String :=
  stripChar squoteChar (stripChar dquoteChar s)

/-- Lines 32-34: the full validation a returned path has passed. -/
def validRimworldDir (info : PathInfo) : Bool :=
  info.pathExists && info.isDir && (info.hasWin64Exe || info.hasWin32Exe)

/-- The `while True` prompt loop of lines 28-40: read input `i`, strip
quotes, accept if it exists, is a directory and has a recognized executable,
otherwise print a message and loop on input `i + 1`. -/
def promptLoop (env : PromptEnv) : Nat → Nat → Option String
  | 0, _ => none
  | fuel + 1, i =>
    let p := cleanInput (env.inputs i)
    let info := env.fs p
    if info.pathExists && info.isDir then
      if info.hasWin64Exe || info.hasWin32Exe then some p
      else promptLoop env fuel (i + 1)
    else promptLoop env fuel (i + 1)

/-- Line 21 of the source. -/
def defaultRimworldPath : String :=
  "C:\\Program Files (x86)\\Steam\\steamapps\\common\\RimWorld"

/-- `find_rimworld_directory`: the default location is accepted on existence
and directory-ness alone (no executable check); otherwise the prompt loop
runs. -/
def find_rimworld_directory (env : PromptEnv) (fuel : Nat) : Option String :=
  let dinfo := env.fs defaultRimworldPath
  if dinfo.pathExists && dinfo.isDir then some defaultRimworldPath
  else promptLoop env fuel 0

/-- A valid input is accepted immediately. -/
theorem promptLoop_accept (env : PromptEnv) (fuel i : Nat)
    (h : validRimworldDir (env.fs (cleanInput (env.inputs i))) = true) :
    promptLoop env (fuel + 1) i = some (cleanInput (env.inputs i)) := by
  rw [validRimworldDir, Bool.and_eq_true] at h
  simp [promptLoop, h.1, h.2]

/-- An invalid input is rejected and the loop moves to the next input. -/
theorem promptLoop_reject (env : PromptEnv) (fuel i : Nat)
    (h : validRimworldDir (env.fs (cleanInput (env.inputs i))) = false) :
    promptLoop env (fuel + 1) i = promptLoop env fuel (i + 1) := by
  rw [validRimworldDir] at h
  cases hpd : (env.fs (cleanInput (env.inputs i))).pathExists &&
      (env.fs (cleanInput (env.inputs i))).isDir with
  | false => simp [promptLoop, hpd]
  | true =>
    rw [hpd, Bool.true_and] at h
    simp [promptLoop, hpd, h]

/-- C9: a path the prompt loop returns always exists, is a directory, and
contains a recognized executable; an invalid input only makes the loop
reprompt on the next input; and the retry count is unbounded: `n` invalid
inputs leave the loop still prompting (fuel `n` is exhausted with no
answer), and a valid input after any number `n` of invalid ones is
returned. -/
theorem promptLoop_validates :
    ∀ (env : PromptEnv) (fuel i : Nat) (p : String),
      (promptLoop env fuel i = some p → validRimworldDir (env.fs p) = true) ∧
      (validRimworldDir (env.fs (cleanInput (env.inputs i))) = false →
        promptLoop env (fuel + 1) i = promptLoop env fuel (i + 1)) ∧
      ((∀ k, k < fuel → validRimworldDir (env.fs (cleanInput (env.inputs (i + k)))) = false) →
        promptLoop env fuel i = none) ∧
      ((∀ k, k < fuel → validRimworldDir (env.fs (cleanInput (env.inputs (i + k)))) = false) →
        validRimworldDir (env.fs (cleanInput (env.inputs (i + fuel)))) = true →
        promptLoop env (fuel + 1) i = some (cleanInput (env.inputs (i + fuel)))) := by
  intro env fuel i p
  refine ⟨?_, promptLoop_reject env fuel i, ?_, ?_⟩
  · induction fuel generalizing i with
    | zero => intro h; cases h
    | succ n ih =>
      intro h
      cases hv : validRimworldDir (env.fs (cleanInput (env.inputs i))) with
      | true =>
        rw [promptLoop_accept env n i hv] at h
        injection h with h
        rwa [h] at hv
      | false =>
        rw [promptLoop_reject env n i hv] at h
        exact ih (i + 1) h
  · induction fuel generalizing i with
    | zero => intro _; rfl
    | succ n ih =>
      intro hall
      have h0 : validRimworldDir (env.fs (cleanInput (env.inputs i))) = false := by
        have := hall 0 (Nat.succ_pos n)
        rwa [Nat.add_zero] at this
      rw [promptLoop_reject env n i h0]
      exact ih (i + 1) (fun k hk => by
        have := hall (k + 1) (Nat.succ_lt_succ hk)
        rwa [show i + (k + 1) = i + 1 + k by omega] at this)
  · induction fuel generalizing i with
    | zero =>
      intro _ hv
      rw [Nat.add_zero] at hv
      exact promptLoop_accept env 0 i hv
    | succ n ih =>
      intro hall hv
      have h0 : validRimworldDir (env.fs (cleanInput (env.inputs i))) = false := by
        have := hall 0 (Nat.succ_pos n)
        rwa [Nat.add_zero] at this
      rw [promptLoop_reject env (n + 1) i h0,
        show i + (n + 1) = i + 1 + n by omega]
      exact ih (i + 1)
        (fun k hk => by
          have := hall (k + 1) (Nat.succ_lt_succ hk)
          rwa [show i + (k + 1) = i + 1 + k by omega] at this)
        (by rwa [show i + 1 + n = i + (n + 1) by omega])

/-- A demonstration filesystem: one real RimWorld directory, one directory
without the executables, nothing else. -/
def demoFs : String → PathInfo := fun p =>
  if p = "D:\\Games\\RimWorld" then
    { pathExists := true, isDir := true, hasWin64Exe := true, hasWin32Exe := false }
  else if p = "D:\\Empty" then
    { pathExists := true, isDir := true, hasWin64Exe := false, hasWin32Exe := false }
  else
    { pathExists := false, isDir := false, hasWin64Exe := false, hasWin32Exe := false }

/-- A user who first enters the executable-less directory, then the real
one wrapped in quotes. -/
def demoInputs : Nat → String := fun k =>
  if k = 0 then "D:\\Empty" else "\"D:\\Games\\RimWorld\""

def demoPromptEnv : PromptEnv :=
  { fs := demoFs, inputs := demoInputs }

/-- Witness for C9: the first (invalid) input exhausts fuel 1 with no
answer; with fuel 2 the second input is accepted, and the returned path
passes the full validation. -/
theorem promptLoop_validates_witness :
    promptLoop demoPromptEnv 2 0 = some "D:\\Games\\RimWorld" ∧
    validRimworldDir (demoPromptEnv.fs "D:\\Games\\RimWorld") = true ∧
    promptLoop demoPromptEnv 1 0 = none := by
  have h2 := (promptLoop_validates demoPromptEnv 1 0 "D:\\Games\\RimWorld").2.2.2
    (fun k hk => by
      have hk0 : k = 0 := Nat.lt_one_iff.mp hk
      subst hk0
      decide)
    (by decide)
  have hsome : promptLoop demoPromptEnv 2 0 = some "D:\\Games\\RimWorld" := by
    rw [h2]
    decide
  have hnone := (promptLoop_validates demoPromptEnv 1 0 "D:\\Games\\RimWorld").2.2.1
    (fun k hk => by
      have hk0 : k = 0 := Nat.lt_one_iff.mp hk
      subst hk0
      decide)
  exact ⟨hsome, (promptLoop_validates demoPromptEnv 2 0 "D:\\Games\\RimWorld").1 hsome, hnone⟩

end RimworldAccess
